import Mathlib

/-!
Shallow embedding of `rustc-cfg` (src/lib.rs): the `Cfg` record and the
parsing pipeline of `Cfg::new_`, which runs `rustc --print cfg` and parses
its line-oriented `key="value"` output.

Modelling conventions:
- Rust `String` / `&str` text is modelled as `List Char` (the bytes are
  assumed to be valid UTF-8; `String::from_utf8` is therefore dropped).
- Rust `Result<String, ()>` accumulator variables (`Err(())` initial state,
  `Ok(v)` once seen) are modelled as `Option (List Char)` (`none` = `Err(())`).
- The `u!` macro panics (diverges) instead of returning; divergence is made
  explicit with the `PanicOr` sum: `PanicOr.panic msg` models
  `panic!(stringify!(e))`, and `PanicOr.ret x` a normal return of `x`.
- The process invocation itself (`Command::new`) is outside the embedding;
  `Cfg.new_` here takes the captured `Output` (exit-status success flag,
  stdout text, stderr text) and models lines 88-139 of the source.
-/

/-- Result of running the toolchain process: exit-status success flag plus
the captured stdout and stderr, already decoded to text. -/
structure Output where
  success : Bool
  stdout : List Char
  stderr : List Char
deriving DecidableEq

/-- Explicit model of a Rust computation that either returns normally or
diverges with a panic message. -/
inductive PanicOr (α : Type) where
  | panic (msg : String)
  | ret (a : α)
deriving DecidableEq

/-- Rust `str::split(sep)` on text: splits at every occurrence of `sep`,
keeping empty pieces; the empty string yields one empty piece. -/
def rustSplit (sep : Char) : List Char → List (List Char)
  | [] => [[]]
  | c :: rest =>
    if c = sep then
      [] :: rustSplit sep rest
    else
      match rustSplit sep rest with
      | [] => [[c]]
      | p :: ps => (c :: p) :: ps

/-- Rust `str::lines` strips one trailing carriage return from each line. -/
def stripCR (l : List Char) : List Char :=
  if l.getLast? = some '\r' then l.dropLast else l

/-- Rust `str::lines`: split at every newline, drop a final empty piece
(the final line ending is optional), strip a trailing `\r` from each line. -/
def rustLines (s : List Char) : List (List Char) :=
  let ps := rustSplit '\n' s
  let ps := if ps.getLast? = some [] then ps.dropLast else ps
  ps.map stripCR

/-- Rust `str::trim_matches(c)`: repeatedly removes `c` from both ends. -/
def trimMatches (c : Char) (s : List Char) : List Char :=
  ((s.dropWhile (fun a => a = c)).reverse.dropWhile (fun a => a = c)).reverse

/-- Rust `str::contains(needle)` (substring test), recursing on the haystack. -/
def rustContains (hay needle : List Char) : Bool :=
  match hay with
  | [] => needle.isEmpty
  | _ :: t => needle.isPrefixOf hay || rustContains t needle

/-- Parsed `rustc --print cfg` (the `Cfg` struct of the source; the private
`_0 : ()` marker field carries no data and is dropped). -/
structure Cfg where
  target_os : List Char
  target_family : List Char
  target_arch : List Char
  target_endian : List Char
  target_pointer_width : List Char
  target_env : List Char
  target_has_atomic : List (List Char)
  target_feature : List (List Char)
deriving DecidableEq

/-- The mutable accumulator variables of `Cfg::new_` (lines 97-104):
six `Result<String, ()>` singles and two `Vec<String>` accumulators. -/
structure ParseState where
  target_os : Option (List Char)
  target_family : Option (List Char)
  target_arch : Option (List Char)
  target_endian : Option (List Char)
  target_pointer_width : Option (List Char)
  target_env : Option (List Char)
  target_has_atomic : List (List Char)
  target_feature : List (List Char)
deriving DecidableEq

/-- Initial accumulator state: every single is `Err(())`, both vectors empty. -/
def initState : ParseState :=
  ⟨none, none, none, none, none, none, [], []⟩

/-- One iteration of the `for entry in spec.lines()` loop (lines 106-126):
`entry.split('=')`, take the first two pieces as key and value, dispatch on
the key, `trim_matches('"')` the value. -/
def processEntry (st : ParseState) (entry : List Char) : ParseState :=
  match rustSplit '=' entry with
  | key :: value :: _ =>
    if key = "target_os".toList then
      { st with target_os := some (trimMatches '"' value) }
    else if key = "target_family".toList then
      { st with target_family := some (trimMatches '"' value) }
    else if key = "target_arch".toList then
      { st with target_arch := some (trimMatches '"' value) }
    else if key = "target_endian".toList then
      { st with target_endian := some (trimMatches '"' value) }
    else if key = "target_pointer_width".toList then
      { st with target_pointer_width := some (trimMatches '"' value) }
    else if key = "target_env".toList then
      { st with target_env := some (trimMatches '"' value) }
    else if key = "target_has_atomic".toList then
      { st with target_has_atomic := st.target_has_atomic ++ [trimMatches '"' value] }
    else if key = "target_feature".toList then
      { st with target_feature := st.target_feature ++ [trimMatches '"' value] }
    else
      st
  | _ => st

/-- The accumulator state after the whole line loop has consumed `spec`. -/
def finalState (spec : List Char) : ParseState :=
  (rustLines spec).foldl processEntry initState

/-- The `Ok(Cfg { .. })` expression (lines 128-138): each required field is
unwrapped with `u!`, which panics with the field name if the field was never
seen; fields are evaluated in textual order, so the first missing field (in
that order) names the panic. -/
def assemble (st : ParseState) : PanicOr Cfg :=
  match st.target_os with
  | none => .panic "target_os"
  | some os =>
    match st.target_family with
    | none => .panic "target_family"
    | some fam =>
      match st.target_arch with
      | none => .panic "target_arch"
      | some arch =>
        match st.target_endian with
        | none => .panic "target_endian"
        | some endian =>
          match st.target_pointer_width with
          | none => .panic "target_pointer_width"
          | some pw =>
            match st.target_env with
            | none => .panic "target_env"
            | some env =>
              .ret ⟨os, fam, arch, endian, pw, env, st.target_has_atomic, st.target_feature⟩

/-- The stderr substring whose presence makes `Cfg::new_` panic (line 89). -/
def oldRustcNeedle : List Char := "unknown print request `cfg`".toList

/-- The panic message for a too-old rustc (line 90). -/
def oldRustcMsg : String := "rustc is too old, `--print cfg` is not available"

/-- `Cfg::new_` from the captured process output onward (lines 88-139):
on non-zero exit status, panic if stderr reports an unknown print request,
otherwise return `Err(())` (modelled `ret none`); on success, parse stdout
line by line and assemble the record, panicking on a missing required
field. `ret (some cfg)` models `Ok(cfg)`. -/
def Cfg.new_ (output : Output) : PanicOr (Option Cfg) :=
  if output.success = false then
    if rustContains output.stderr oldRustcNeedle then
      .panic oldRustcMsg
    else
      .ret none
  else
    match assemble (finalState output.stdout) with
    | .panic m => .panic m
    | .ret cfg => .ret (some cfg)

/-- Does `split('=')` on this line yield at least two pieces whose first
piece is `k`? Exactly when the loop body's arm for key `k` fires. -/
def setsKey (k : List Char) (l : List Char) : Bool :=
  match rustSplit '=' l with
  | key :: _ :: _ => decide (key = k)
  | _ => false

/-- The raw (pre-trim) value the loop body extracts from a line: the second
piece of `split('=')` (empty if the line has no `=`). -/
def rawValue (l : List Char) : List Char :=
  match rustSplit '=' l with
  | _ :: v :: _ => v
  | _ => []

/-! ### Lemmas about `rustSplit` -/

theorem rustSplit_ne_nil (sep : Char) (s : List Char) : rustSplit sep s ≠ [] := by
  induction s with
  | nil => simp [rustSplit]
  | cons c t ih =>
    simp only [rustSplit]
    split
    · simp
    · cases h : rustSplit sep t with
      | nil => simp
      | cons p ps => simp

/-- The first piece of `split(sep)` is the run of characters before the first
separator. -/
theorem rustSplit_shape (sep : Char) (v : List Char) :
    ∃ r, rustSplit sep v = (v.takeWhile (fun c => !decide (c = sep))) :: r := by
  induction v with
  | nil => exact ⟨[], rfl⟩
  | cons c t ih =>
    by_cases hc : c = sep
    · subst hc
      refine ⟨rustSplit c t, ?_⟩
      simp [rustSplit, List.takeWhile_cons]
    · obtain ⟨r, hr⟩ := ih
      refine ⟨r, ?_⟩
      simp only [rustSplit, if_neg hc, hr, List.takeWhile_cons]
      simp [hc]

/-- A separator-free string splits into exactly one piece: itself. -/
theorem rustSplit_no_sep (sep : Char) (l : List Char) (h : ∀ c ∈ l, ¬ c = sep) :
    rustSplit sep l = [l] := by
  induction l with
  | nil => rfl
  | cons c t ih =>
    have hc : ¬ c = sep := h c (by simp)
    have ht := ih (fun a ha => h a (by simp [ha]))
    simp [rustSplit, hc, ht]

/-- Splitting `key ++ '=' ++ rest` where the key is separator-free: the key is
the first piece and the remaining pieces are the split of `rest`. -/
theorem rustSplit_key (sep : Char) (k v : List Char) (h : ∀ c ∈ k, ¬ c = sep) :
    rustSplit sep (k ++ sep :: v) = k :: rustSplit sep v := by
  induction k with
  | nil => simp [rustSplit]
  | cons a k' ih =>
    have ha : ¬ a = sep := h a (by simp)
    have hk := ih (fun c hc => h c (by simp [hc]))
    simp [rustSplit, ha, hk]

/-! ### Lemmas about `trimMatches` -/

theorem dropWhile_eq_self_of (p : Char → Bool) (l : List Char)
    (h : ∀ c ∈ l, p c = false) : l.dropWhile p = l := by
  cases l with
  | nil => rfl
  | cons a t => simp [List.dropWhile_cons, h a (by simp)]

/-- Trimming quotes removes a double layer of quotes wholesale: the inner pair
around a quote-free core is stripped together with the outer pair. -/
theorem trim_double_quotes (w : List Char) (h : ∀ c ∈ w, ¬ c = '"') :
    trimMatches '"' ('"' :: '"' :: (w ++ ['"', '"'])) = w := by
  cases w with
  | nil => decide
  | cons a w' =>
    have ha : ¬ a = '"' := h a (by simp)
    unfold trimMatches
    have h1 : List.dropWhile (fun x => decide (x = '"'))
        ('"' :: '"' :: ((a :: w') ++ ['"', '"'])) = (a :: w') ++ ['"', '"'] := by
      simp [List.dropWhile_cons, ha]
    rw [h1]
    have h2 : ((a :: w') ++ ['"', '"']).reverse = '"' :: '"' :: (a :: w').reverse := by
      simp
    rw [h2]
    have h3 : List.dropWhile (fun x => decide (x = '"'))
        ('"' :: '"' :: (a :: w').reverse) = (a :: w').reverse := by
      simp only [List.dropWhile_cons, decide_eq_true_eq, if_pos rfl]
      refine dropWhile_eq_self_of _ _ ?_
      intro c hc
      have : c ∈ (a :: w') := by
        have := List.mem_reverse.mp hc
        exact this
      simp [h c this]
    rw [h3, List.reverse_reverse]

/-! ### Lemmas about the loop body `processEntry` -/

/-- The raw value extracted from `key=rest` is the part of `rest` before the
next `=` (the piece between the first and second separator). -/
theorem rawValue_key (k v : List Char) (h : ∀ c ∈ k, ¬ c = '=') :
    rawValue (k ++ '=' :: v) = v.takeWhile (fun c => !decide (c = '=')) := by
  obtain ⟨r, hr⟩ := rustSplit_shape '=' v
  unfold rawValue
  rw [rustSplit_key '=' k v h, hr]

/-- A `target_os=` line overwrites the accumulator's `target_os` with the
trimmed piece of the remainder before the next `=`, whatever came before. -/
theorem processEntry_os_set (st : ParseState) (v : List Char) :
    (processEntry st ("target_os".toList ++ '=' :: v)).target_os
      = some (trimMatches '"' (v.takeWhile (fun c => !decide (c = '=')))) := by
  obtain ⟨r, hr⟩ := rustSplit_shape '=' v
  unfold processEntry
  rw [rustSplit_key '=' ("target_os".toList) v (by decide), hr]
  simp

theorem processEntry_os_skip (st : ParseState) (l : List Char)
    (h : setsKey ("target_os".toList) l = false) :
    (processEntry st l).target_os = st.target_os := by
  unfold processEntry
  unfold setsKey at h
  cases hs : rustSplit '=' l with
  | nil => rfl
  | cons key rest =>
    cases rest with
    | nil => rfl
    | cons value r =>
      rw [hs] at h
      simp only [decide_eq_false_iff_not] at h
      simp only []
      split_ifs <;> simp_all

theorem processEntry_family_skip (st : ParseState) (l : List Char)
    (h : setsKey ("target_family".toList) l = false) :
    (processEntry st l).target_family = st.target_family := by
  unfold processEntry
  unfold setsKey at h
  cases hs : rustSplit '=' l with
  | nil => rfl
  | cons key rest =>
    cases rest with
    | nil => rfl
    | cons value r =>
      rw [hs] at h
      simp only [decide_eq_false_iff_not] at h
      simp only []
      split_ifs <;> simp_all

theorem processEntry_arch_skip (st : ParseState) (l : List Char)
    (h : setsKey ("target_arch".toList) l = false) :
    (processEntry st l).target_arch = st.target_arch := by
  unfold processEntry
  unfold setsKey at h
  cases hs : rustSplit '=' l with
  | nil => rfl
  | cons key rest =>
    cases rest with
    | nil => rfl
    | cons value r =>
      rw [hs] at h
      simp only [decide_eq_false_iff_not] at h
      simp only []
      split_ifs <;> simp_all

/-- Each line contributes to `target_feature` exactly its trimmed raw value
when its key is `target_feature`, and nothing otherwise. -/
theorem processEntry_feature (st : ParseState) (l : List Char) :
    (processEntry st l).target_feature
      = st.target_feature ++
          (if setsKey ("target_feature".toList) l then [trimMatches '"' (rawValue l)] else []) := by
  unfold processEntry setsKey rawValue
  cases hs : rustSplit '=' l with
  | nil => simp
  | cons key rest =>
    cases rest with
    | nil => simp
    | cons value r =>
      simp only []
      split_ifs <;> simp_all

/-- Each line contributes to `target_has_atomic` exactly its trimmed raw value
when its key is `target_has_atomic`, and nothing otherwise. -/
theorem processEntry_atomic (st : ParseState) (l : List Char) :
    (processEntry st l).target_has_atomic
      = st.target_has_atomic ++
          (if setsKey ("target_has_atomic".toList) l then [trimMatches '"' (rawValue l)] else []) := by
  unfold processEntry setsKey rawValue
  cases hs : rustSplit '=' l with
  | nil => simp
  | cons key rest =>
    cases rest with
    | nil => simp
    | cons value r =>
      simp only []
      split_ifs <;> simp_all

/-- A line with no `=` does not match the two-piece pattern, so the loop body
leaves the whole accumulator state unchanged. -/
theorem processEntry_no_eq (st : ParseState) (l : List Char)
    (h : ∀ c ∈ l, ¬ c = '=') : processEntry st l = st := by
  unfold processEntry
  rw [rustSplit_no_sep '=' l h]

/-! ### Lemmas about the whole line loop (`foldl processEntry`) -/

theorem foldl_os_skip (lines : List (List Char)) (st : ParseState)
    (h : ∀ l ∈ lines, setsKey ("target_os".toList) l = false) :
    (lines.foldl processEntry st).target_os = st.target_os := by
  induction lines generalizing st with
  | nil => rfl
  | cons l t ih =>
    rw [List.foldl_cons, ih _ (fun x hx => h x (by simp [hx]))]
    exact processEntry_os_skip st l (h l (by simp))

theorem foldl_family_skip (lines : List (List Char)) (st : ParseState)
    (h : ∀ l ∈ lines, setsKey ("target_family".toList) l = false) :
    (lines.foldl processEntry st).target_family = st.target_family := by
  induction lines generalizing st with
  | nil => rfl
  | cons l t ih =>
    rw [List.foldl_cons, ih _ (fun x hx => h x (by simp [hx]))]
    exact processEntry_family_skip st l (h l (by simp))

theorem foldl_arch_skip (lines : List (List Char)) (st : ParseState)
    (h : ∀ l ∈ lines, setsKey ("target_arch".toList) l = false) :
    (lines.foldl processEntry st).target_arch = st.target_arch := by
  induction lines generalizing st with
  | nil => rfl
  | cons l t ih =>
    rw [List.foldl_cons, ih _ (fun x hx => h x (by simp [hx]))]
    exact processEntry_arch_skip st l (h l (by simp))

/-- The loop accumulates, onto `target_feature`, the trimmed raw value of
every `target_feature` line, in input order. -/
theorem foldl_feature (lines : List (List Char)) (st : ParseState) :
    (lines.foldl processEntry st).target_feature
      = st.target_feature
          ++ (lines.filter (setsKey ("target_feature".toList))).map
              (fun l => trimMatches '"' (rawValue l)) := by
  induction lines generalizing st with
  | nil => simp
  | cons l t ih =>
    rw [List.foldl_cons, ih, processEntry_feature, List.filter_cons]
    cases hf : setsKey ("target_feature".toList) l <;> simp

/-- The loop accumulates, onto `target_has_atomic`, the trimmed raw value of
every `target_has_atomic` line, in input order. -/
theorem foldl_atomic (lines : List (List Char)) (st : ParseState) :
    (lines.foldl processEntry st).target_has_atomic
      = st.target_has_atomic
          ++ (lines.filter (setsKey ("target_has_atomic".toList))).map
              (fun l => trimMatches '"' (rawValue l)) := by
  induction lines generalizing st with
  | nil => simp
  | cons l t ih =>
    rw [List.foldl_cons, ih, processEntry_atomic, List.filter_cons]
    cases hf : setsKey ("target_has_atomic".toList) l <;> simp

/-! ### Lemmas about `assemble` and `Cfg.new_` -/

/-- A successfully assembled record copies both accumulator vectors verbatim. -/
theorem assemble_ret (st : ParseState) (c : Cfg) (h : assemble st = .ret c) :
    c.target_has_atomic = st.target_has_atomic ∧ c.target_feature = st.target_feature := by
  obtain ⟨os, fam, arch, endian, pw, env, atomics, feats⟩ := st
  cases os <;> cases fam <;> cases arch <;> cases endian <;> cases pw <;> cases env <;>
      simp [assemble] at h
  subst h
  simp

/-- Inverting a successful run of `Cfg::new_`: the returned record is the one
`assemble` built from the final accumulator state. -/
theorem new_ret_inv (s e : List Char) (cfg : Cfg)
    (h : Cfg.new_ ⟨true, s, e⟩ = .ret (some cfg)) :
    assemble (finalState s) = .ret cfg := by
  unfold Cfg.new_ at h
  simp only [Bool.true_eq_false, if_false] at h
  split at h <;> simp_all

/-! ### Claims -/

/-- C1 counterexample: on the line `target_os=a=b` the parser stores `a`,
not the full remainder `a=b` after the first `=`; the claim that the stored
value is the entire remainder after the first `=` (including further `=`
characters) is false. -/
theorem claim_C1_counterexample :
    (processEntry initState ("target_os=a=b".toList)).target_os = some ("a".toList)
    ∧ ¬ (processEntry initState ("target_os=a=b".toList)).target_os = some ("a=b".toList) := by
  decide

/-- C1 (amended): each line is split at every `=`; the raw value handed to
quote-stripping is the piece of the remainder before the next `=` (anything
after a second `=` is discarded), and for a recognized key such as
`target_os` the stored field is that piece, quote-trimmed. -/
theorem claim_C1 (st : ParseState) (k v : List Char) (hk : ∀ c ∈ k, ¬ c = '=') :
    rawValue (k ++ '=' :: v) = v.takeWhile (fun c => !decide (c = '='))
    ∧ (processEntry st ("target_os".toList ++ '=' :: v)).target_os
        = some (trimMatches '"' (v.takeWhile (fun c => !decide (c = '=')))) :=
  ⟨rawValue_key k v hk, processEntry_os_set st v⟩

/-- C1 witness: the amended claim instantiated at the line `target_os=a=b`. -/
theorem claim_C1_witness :
    rawValue ("target_os".toList ++ '=' :: "a=b".toList)
        = ("a=b".toList).takeWhile (fun c => !decide (c = '='))
    ∧ (processEntry initState ("target_os".toList ++ '=' :: "a=b".toList)).target_os
        = some (trimMatches '"' (("a=b".toList).takeWhile (fun c => !decide (c = '=')))) :=
  claim_C1 initState ("target_os".toList) ("a=b".toList) (by decide)

/-- C2 counterexample: on the line `target_os=""v""` the parser stores `v`
(every leading and trailing quote removed), not `"v"`; the claim that only
the outermost matching pair of quotes is stripped is false. -/
theorem claim_C2_counterexample :
    (processEntry initState ("target_os=\"\"v\"\"".toList)).target_os = some ("v".toList)
    ∧ ¬ (processEntry initState ("target_os=\"\"v\"\"".toList)).target_os
          = some ("\"v\"".toList) := by
  decide

/-- C2 (amended): `trim_matches('"')` removes every leading and every
trailing quote character: a value written `""w""` with a quote-free core `w`
loses both quote layers, the inner pair included. -/
theorem claim_C2 (st : ParseState) (w : List Char)
    (hq : ∀ c ∈ w, ¬ c = '"') (he : ∀ c ∈ w, ¬ c = '=') :
    (processEntry st
        ("target_os".toList ++ '=' :: ('"' :: '"' :: (w ++ ['"', '"'])))).target_os
      = some w := by
  have hv : ∀ c ∈ ('"' :: '"' :: (w ++ ['"', '"'])), ¬ c = '=' := by
    intro c hc
    simp only [List.mem_cons, List.mem_append, List.not_mem_nil, or_false] at hc
    rcases hc with rfl | rfl | h | rfl | rfl
    · decide
    · decide
    · exact he c h
    · decide
    · decide
  unfold processEntry
  rw [rustSplit_key '=' ("target_os".toList) _ (by decide), rustSplit_no_sep '=' _ hv]
  simp [trim_double_quotes w hq]

/-- C2 witness: the amended claim instantiated at core `v`, i.e. at the line
`target_os=""v""`. -/
theorem claim_C2_witness :
    (processEntry initState
        ("target_os".toList ++ '=' :: ('"' :: '"' :: ("v".toList ++ ['"', '"'])))).target_os
      = some ("v".toList) :=
  claim_C2 initState ("v".toList) (by decide) (by decide)

/-- C3 counterexample: stdout carrying every required field except
`target_arch` makes `Cfg::new_` panic with message `target_arch` instead of
returning a typed error identifying the field; the claim that the missing
field produces an error return rather than abnormal termination is false. -/
theorem claim_C3_counterexample :
    Cfg.new_ ⟨true,
      ("target_os=\"linux\"\ntarget_family=\"unix\"\ntarget_endian=\"little\"\ntarget_pointer_width=\"64\"\ntarget_env=\"gnu\"").toList,
      []⟩ = PanicOr.panic "target_arch" := by
  decide

/-- C3 (amended): when no line of stdout carries the key `target_arch` while
`target_os` and `target_family` were both seen, `Cfg::new_` diverges with a
panic whose message names `target_arch` (the `u!` macro), rather than
succeeding, returning a partial record, or returning a typed error. -/
theorem claim_C3 (s e : List Char)
    (h : ∀ l ∈ rustLines s, setsKey ("target_arch".toList) l = false)
    (hos : ¬ (finalState s).target_os = none)
    (hfam : ¬ (finalState s).target_family = none) :
    Cfg.new_ ⟨true, s, e⟩ = PanicOr.panic "target_arch" := by
  have harch : (finalState s).target_arch = none := by
    unfold finalState
    rw [foldl_arch_skip _ _ h]
    rfl
  obtain ⟨os, h1⟩ := Option.ne_none_iff_exists'.mp hos
  obtain ⟨fam, h2⟩ := Option.ne_none_iff_exists'.mp hfam
  have ha : assemble (finalState s) = PanicOr.panic "target_arch" := by
    unfold assemble
    rw [h1, h2, harch]
  simp [Cfg.new_, ha]

/-- C3 witness: the amended claim instantiated at stdout that never mentions
`target_arch` but carries the other required fields. -/
theorem claim_C3_witness :
    Cfg.new_ ⟨true,
      ("target_os=\"linux\"\ntarget_family=\"unix\"\ntarget_endian=\"big\"\ntarget_pointer_width=\"32\"\ntarget_env=\"\"").toList,
      ("warning".toList)⟩ = PanicOr.panic "target_arch" :=
  claim_C3
    (("target_os=\"linux\"\ntarget_family=\"unix\"\ntarget_endian=\"big\"\ntarget_pointer_width=\"32\"\ntarget_env=\"\"").toList)
    ("warning".toList) (by decide) (by decide) (by decide)

/-- C4 counterexample: a non-zero exit with stderr `error: unsupported target`
yields the bare `Err(())` (modelled `ret none`), which carries no payload at
all; the claim that `Cfg::new` returns an error whose payload equals the
stderr text verbatim is false — the stderr text is discarded. -/
theorem claim_C4_counterexample :
    Cfg.new_ ⟨false, [], ("error: unsupported target").toList⟩ = PanicOr.ret none := by
  decide

/-- C4 (amended): whenever the process exits with non-zero status and stderr
lacks the old-rustc marker substring, `Cfg::new_` returns the payload-free
error `Err(())` (modelled `ret none`); the captured stderr is never carried
in the error value. -/
theorem claim_C4 (stdout stderr : List Char)
    (h : rustContains stderr oldRustcNeedle = false) :
    Cfg.new_ ⟨false, stdout, stderr⟩ = PanicOr.ret none := by
  simp [Cfg.new_, h]

/-- C4 witness: stderr `error: bad target` lacks the marker, so the
payload-free error is returned. -/
theorem claim_C4_witness :
    Cfg.new_ ⟨false, [], ("error: bad target").toList⟩ = PanicOr.ret none :=
  claim_C4 [] (("error: bad target").toList) (by decide)

/-- C5 counterexample: stdout with all required fields except `target_family`
makes `Cfg::new_` panic with message `target_family`; the claim that parsing
succeeds with `target_vendor` and `target_family` absent is false — this
variant treats `target_family` as required (and its `Cfg` record has no
`target_vendor` field at all). -/
theorem claim_C5_counterexample :
    Cfg.new_ ⟨true,
      ("target_os=\"none\"\ntarget_arch=\"arm\"\ntarget_endian=\"little\"\ntarget_pointer_width=\"32\"\ntarget_env=\"\"").toList,
      []⟩ = PanicOr.panic "target_family" := by
  decide

/-- C5 (amended): `target_family` is required in this variant: when no line
of stdout carries the key `target_family` (and `target_os` was seen),
`Cfg::new_` panics naming `target_family` instead of succeeding with the
field absent; no `target_vendor` field exists in the record. -/
theorem claim_C5 (s e : List Char)
    (h : ∀ l ∈ rustLines s, setsKey ("target_family".toList) l = false)
    (hos : ¬ (finalState s).target_os = none) :
    Cfg.new_ ⟨true, s, e⟩ = PanicOr.panic "target_family" := by
  have hfam : (finalState s).target_family = none := by
    unfold finalState
    rw [foldl_family_skip _ _ h]
    rfl
  obtain ⟨os, h1⟩ := Option.ne_none_iff_exists'.mp hos
  have ha : assemble (finalState s) = PanicOr.panic "target_family" := by
    unfold assemble
    rw [h1, hfam]
  simp [Cfg.new_, ha]

/-- C5 witness: the amended claim instantiated at stdout that never mentions
`target_family` but carries the other required fields. -/
theorem claim_C5_witness :
    Cfg.new_ ⟨true,
      ("target_os=\"linux\"\ntarget_arch=\"x86_64\"\ntarget_endian=\"little\"\ntarget_pointer_width=\"64\"\ntarget_env=\"gnu\"").toList,
      ("w".toList)⟩ = PanicOr.panic "target_family" :=
  claim_C5
    (("target_os=\"linux\"\ntarget_arch=\"x86_64\"\ntarget_endian=\"little\"\ntarget_pointer_width=\"64\"\ntarget_env=\"gnu\"").toList)
    ("w".toList) (by decide) (by decide)

/-- C6: last occurrence wins for a duplicated single-valued key: after a
`target_os=` line, if no later line carries the key `target_os`, the stored
`target_os` is that line's trimmed value, whatever earlier lines (including
earlier `target_os=` lines) had stored; the loop never fails on the
duplicate. -/
theorem claim_C6 (st : ParseState) (pre post : List (List Char)) (v : List Char)
    (h : ∀ l ∈ post, setsKey ("target_os".toList) l = false) :
    ((pre ++ ("target_os".toList ++ '=' :: v) :: post).foldl processEntry st).target_os
      = some (trimMatches '"' (v.takeWhile (fun c => !decide (c = '=')))) := by
  rw [List.foldl_append, List.foldl_cons, foldl_os_skip _ _ h]
  exact processEntry_os_set _ v

/-- C6 witness: `target_os="linux"` followed by `target_os="windows"` stores
the value of the later line. -/
theorem claim_C6_witness :
    (([("target_os=\"linux\"").toList]
        ++ ("target_os".toList ++ '=' :: ("\"windows\"").toList) :: []).foldl
          processEntry initState).target_os
      = some (trimMatches '"'
          ((("\"windows\"").toList).takeWhile (fun c => !decide (c = '=')))) :=
  claim_C6 initState [("target_os=\"linux\"").toList] [] (("\"windows\"").toList)
    (by simp)

/-- C7: the multi-valued fields of a successfully parsed record list, in
input-line order and without deduplication or reordering, the trimmed raw
value of every line keyed `target_has_atomic` resp. `target_feature`. -/
theorem claim_C7 (s e : List Char) (cfg : Cfg)
    (h : Cfg.new_ ⟨true, s, e⟩ = PanicOr.ret (some cfg)) :
    cfg.target_has_atomic
        = ((rustLines s).filter (setsKey ("target_has_atomic".toList))).map
            (fun l => trimMatches '"' (rawValue l))
    ∧ cfg.target_feature
        = ((rustLines s).filter (setsKey ("target_feature".toList))).map
            (fun l => trimMatches '"' (rawValue l)) := by
  obtain ⟨h1, h2⟩ := assemble_ret _ _ (new_ret_inv s e cfg h)
  constructor
  · rw [h1]
    unfold finalState
    rw [foldl_atomic]
    rfl
  · rw [h2]
    unfold finalState
    rw [foldl_feature]
    rfl

/-- C7 witness: a full parse with `target_feature="a"`, `target_feature="b"`
and two identical `target_has_atomic="8"` lines yields exactly those values
in order, duplicates kept. -/
theorem claim_C7_witness :
    (⟨"linux".toList, "unix".toList, "x86_64".toList, "little".toList, "64".toList,
        "gnu".toList, [("8".toList), ("8".toList)], [("a".toList), ("b".toList)]⟩ : Cfg).target_has_atomic
        = ((rustLines (("target_os=\"linux\"\ntarget_family=\"unix\"\ntarget_arch=\"x86_64\"\ntarget_endian=\"little\"\ntarget_pointer_width=\"64\"\ntarget_env=\"gnu\"\ntarget_feature=\"a\"\ntarget_feature=\"b\"\ntarget_has_atomic=\"8\"\ntarget_has_atomic=\"8\"").toList)).filter
              (setsKey ("target_has_atomic".toList))).map
            (fun l => trimMatches '"' (rawValue l))
    ∧ (⟨"linux".toList, "unix".toList, "x86_64".toList, "little".toList, "64".toList,
        "gnu".toList, [("8".toList), ("8".toList)], [("a".toList), ("b".toList)]⟩ : Cfg).target_feature
        = ((rustLines (("target_os=\"linux\"\ntarget_family=\"unix\"\ntarget_arch=\"x86_64\"\ntarget_endian=\"little\"\ntarget_pointer_width=\"64\"\ntarget_env=\"gnu\"\ntarget_feature=\"a\"\ntarget_feature=\"b\"\ntarget_has_atomic=\"8\"\ntarget_has_atomic=\"8\"").toList)).filter
              (setsKey ("target_feature".toList))).map
            (fun l => trimMatches '"' (rawValue l)) :=
  claim_C7
    (("target_os=\"linux\"\ntarget_family=\"unix\"\ntarget_arch=\"x86_64\"\ntarget_endian=\"little\"\ntarget_pointer_width=\"64\"\ntarget_env=\"gnu\"\ntarget_feature=\"a\"\ntarget_feature=\"b\"\ntarget_has_atomic=\"8\"\ntarget_has_atomic=\"8\"").toList)
    [] _ (by decide)

/-- C8: a line with no `=` character is skipped: the loop body returns the
accumulator unchanged, and removing such a line from the line sequence does
not change the loop's result; it never causes a parse failure. -/
theorem claim_C8 (l : List Char) (h : ∀ c ∈ l, ¬ c = '=')
    (st : ParseState) (pre post : List (List Char)) :
    processEntry st l = st
    ∧ (pre ++ l :: post).foldl processEntry st = (pre ++ post).foldl processEntry st := by
  refine ⟨processEntry_no_eq st l h, ?_⟩
  rw [List.foldl_append, List.foldl_append, List.foldl_cons, processEntry_no_eq _ l h]

/-- C8 witness: the bare flag line `unix` is skipped by the loop body. -/
theorem claim_C8_witness :
    processEntry initState ("unix".toList) = initState
    ∧ ([] ++ ("unix".toList) :: []).foldl processEntry initState
        = (([] : List (List Char)) ++ []).foldl processEntry initState :=
  claim_C8 ("unix".toList) (by decide) initState [] []

/-- C9: the parsing-and-assembly stage is deterministic: the embedded
`Cfg.new_` is a pure function of the captured output alone (no locale, time,
or environment is consulted), so two runs on equal captured outputs produce
identical results. -/
theorem claim_C9 (o1 o2 : Output) (h : o1 = o2) : Cfg.new_ o1 = Cfg.new_ o2 := by
  rw [h]

/-- C9 witness: two runs on the same concrete captured output agree. -/
theorem claim_C9_witness :
    Cfg.new_ ⟨true, ("target_os=\"linux\"").toList, []⟩
      = Cfg.new_ ⟨true, ("target_os=\"linux\"").toList, []⟩ :=
  claim_C9 _ _ rfl

/-- C10: on a non-zero exit, `Cfg::new_` panics that rustc is too old — it
does not take the `Err` return — exactly when stderr contains the substring
`unknown print request` for `cfg`; the `Err` return is taken exactly when
stderr lacks that substring. -/
theorem claim_C10 (stdout stderr : List Char) :
    Cfg.new_ ⟨false, stdout, stderr⟩
      = (if rustContains stderr oldRustcNeedle then PanicOr.panic oldRustcMsg
          else PanicOr.ret none) := by
  simp [Cfg.new_]
